import Mathlib

/-!
Verification development for the gdvariant binary codec (Godot "Variant"
encoding). The Go source is shallowly embedded: byte streams are `List Nat`
(each element a byte value), 32-bit little-endian words are written with
`le32` and read with `readU32`, the decoder's dynamic value tree is the
inductive `GDValue`, and fallible operations return `Except DErr` or
`Option`. The decoder is fuel-indexed to make the recursion structural;
`DErr.outOfFuel` never occurs when the fuel dominates the nesting depth of
the value being decoded.
-/

namespace GDVariant

/-! Tag constants from types.go. -/

def NullType : Nat := 0
def IntegerType : Nat := 2
def FloatType : Nat := 3
def StringType : Nat := 4
def Vector3Type : Nat := 7
def DictionaryType : Nat := 20
def ArrayType : Nat := 21
def IntegerArrayType : Nat := 23
def FloatArrayType : Nat := 24

/-! Primitive little-endian 32-bit I/O (encoding/binary with LittleEndian).
`le32` produces the four bytes of the low 32 bits of `n` (a `uint32`
argument is already reduced mod 2^32, and `le32` truncates exactly the same
way). `readU32` models `binary.Read` of a `uint32`: it consumes exactly four
bytes and fails (like an io read error) if the stream is shorter. -/

def le32 (n : Nat) : List Nat :=
  [n % 256, n / 256 % 256, n / 65536 % 256, n / 16777216 % 256]

def readU32 : List Nat → Option (Nat × List Nat)
  | b0 :: b1 :: b2 :: b3 :: rest => some (b0 + 256 * b1 + 65536 * b2 + 16777216 * b3, rest)
  | _ => none

/-! The decoder's dynamic value tree. `decodeObj` in the source produces
exactly these shapes: Integer (int32 bit pattern), Float (float32 bit
pattern -- floats are carried as their 32-bit IEEE-754 patterns, which both
Go conversions `math.Float32bits`/`Float32frombits` preserve bit-exactly),
string (its bytes), Vector3 (three float32 patterns), []int32, []float32,
[]interface{} and map[string]interface{} (modelled as an association list
in stream order; Go map keys are unique, which `wfB` captures). -/

inductive GDValue where
  | int (n : Nat)
  | float (b : Nat)
  | str (s : List Nat)
  | vec3 (x y z : Nat)
  | intArr (xs : List Nat)
  | floatArr (xs : List Nat)
  | arr (xs : List GDValue)
  | dict (ps : List (List Nat × GDValue))

/-- Decode-side errors. `eof` stands for any short-read error from the
underlying reader (io.EOF / io.ErrUnexpectedEOF); `unsupportedType` carries
the offending tag and its raw little-endian bytes, as the source's
`fmt.Errorf("unsupported decode type %d %v", typ, b)` does; `notString` is
`makeString`'s coercion failure; `outOfFuel` is an artifact of the fuel
index only. -/
inductive DErr where
  | eof
  | outOfFuel
  | unsupportedType (typ : Nat) (raw : List Nat)
  | notString (o : GDValue)

/-! Decoder, from part_000. -/

/-- `discardPadding(r, size)`: read and drop the `4 - size % 4` alignment
bytes when that amount is strictly between 0 and 4; an underlying short
read is returned as an error. -/
def discardPadding (s : List Nat) (size : Nat) : Except DErr (List Nat) :=
  let padding := 4 - size % 4
  if 0 < padding ∧ padding < 4 then
    if s.length < padding then .error .eof
    else .ok (s.drop padding)
  else .ok s

/-- `decodeStr`: length header, `size` raw bytes, then padding. The source
calls `discardPadding(r, size)` WITHOUT checking its returned error, so a
missing-padding read error is dropped and the string is returned as a
success; on that path the reader has been drained, hence the `[]` rest. -/
def decodeStr (s : List Nat) : Except DErr (List Nat × List Nat) :=
  match readU32 s with
  | none => .error .eof
  | some (size, rest) =>
    if rest.length < size then .error .eof
    else
      match discardPadding (rest.drop size) size with
      | .ok r => .ok (rest.take size, r)
      | .error _ => .ok (rest.take size, [])

/-- `makeString`: a decoded node is coercible to a map key only if it is a
string. (The source also accepts any `fmt.Stringer`, but none of the node
types the decoder can produce -- Integer, Float, Vector3, the slices, or
the map -- implements it, so on decoder output the string case is the only
successful one.) -/
def makeString : GDValue → Except DErr (List Nat)
  | .str s => .ok s
  | o => .error (.notString o)

/-- The element loop shared by `decodeIntegerArray` and `decodeFloatArray`:
read `n` raw little-endian 32-bit values. -/
def readN32 : Nat → List Nat → Except DErr (List Nat × List Nat)
  | 0, s => .ok ([], s)
  | n + 1, s =>
    match readU32 s with
    | none => .error .eof
    | some (v, s1) =>
      match readN32 n s1 with
      | .error e => .error e
      | .ok (vs, s2) => .ok (v :: vs, s2)

/-- `decodeIntegerArray`: the count header is used in full (`int(header)`),
with no shared-bit masking. -/
def decodeIntegerArray (s : List Nat) : Except DErr (List Nat × List Nat) :=
  match readU32 s with
  | none => .error .eof
  | some (header, rest) => readN32 header rest

/-- `decodeFloatArray`: same layout as the integer array; elements are
float32 bit patterns. -/
def decodeFloatArray (s : List Nat) : Except DErr (List Nat × List Nat) :=
  match readU32 s with
  | none => .error .eof
  | some (header, rest) => readN32 header rest

/-- The type of the recursive node decoder; the fuel-indexed `decodeObj` at
one fuel notch lower is passed here where the source recurses. -/
abbrev DecFun := List Nat → Except DErr (GDValue × List Nat)

/-- The pair loop of `decodeDict`: decode a node, coerce it to a string
key, decode the value node, `n` times. -/
def decodePairs (dec : DecFun) : Nat → List Nat → Except DErr (List (List Nat × GDValue) × List Nat)
  | 0, s => .ok ([], s)
  | n + 1, s =>
    match dec s with
    | .error e => .error e
    | .ok (k, s1) =>
      match makeString k with
      | .error e => .error e
      | .ok ks =>
        match dec s1 with
        | .error e => .error e
        | .ok (v, s2) =>
          match decodePairs dec n s2 with
          | .error e => .error e
          | .ok (ps, s3) => .ok ((ks, v) :: ps, s3)

/-- `decodeDict`: `elements := header & 0x7FFFFFFF`, then the pair loop. -/
def decodeDict (dec : DecFun) (s : List Nat) :
    Except DErr (List (List Nat × GDValue) × List Nat) :=
  match readU32 s with
  | none => .error .eof
  | some (header, rest) => decodePairs dec (header &&& 0x7FFFFFFF) rest

/-- The element loop of `decodeGenericArray`. -/
def decodeN (dec : DecFun) : Nat → List Nat → Except DErr (List GDValue × List Nat)
  | 0, s => .ok ([], s)
  | n + 1, s =>
    match dec s with
    | .error e => .error e
    | .ok (v, s1) =>
      match decodeN dec n s1 with
      | .error e => .error e
      | .ok (vs, s2) => .ok (v :: vs, s2)

/-- `decodeGenericArray`: `size := int(header & 0x7FFFFFFF)`, then recurse
per element. -/
def decodeGenericArray (dec : DecFun) (s : List Nat) :
    Except DErr (List GDValue × List Nat) :=
  match readU32 s with
  | none => .error .eof
  | some (header, rest) => decodeN dec (header &&& 0x7FFFFFFF) rest

/-- The body of `decodeObj`: read the tag word and dispatch, in the
source's case order. The Integer/Float/Vector3 cases read the fixed-size
payload (`io.ReadAtLeast`) and unmarshal it; an unknown tag yields the
error carrying the tag and its raw bytes. -/
def decodeStep (dec : DecFun) (s : List Nat) : Except DErr (GDValue × List Nat) :=
  match readU32 s with
  | none => .error .eof
  | some (typ, rest) =>
    if typ = StringType then
      match decodeStr rest with
      | .error e => .error e
      | .ok (cs, r) => .ok (.str cs, r)
    else if typ = IntegerType then
      match readU32 rest with
      | none => .error .eof
      | some (n, r) => .ok (.int n, r)
    else if typ = FloatType then
      match readU32 rest with
      | none => .error .eof
      | some (b, r) => .ok (.float b, r)
    else if typ = DictionaryType then
      match decodeDict dec rest with
      | .error e => .error e
      | .ok (ps, r) => .ok (.dict ps, r)
    else if typ = Vector3Type then
      match readU32 rest with
      | none => .error .eof
      | some (x, r1) =>
        match readU32 r1 with
        | none => .error .eof
        | some (y, r2) =>
          match readU32 r2 with
          | none => .error .eof
          | some (z, r3) => .ok (.vec3 x y z, r3)
    else if typ = IntegerArrayType then
      match decodeIntegerArray rest with
      | .error e => .error e
      | .ok (xs, r) => .ok (.intArr xs, r)
    else if typ = FloatArrayType then
      match decodeFloatArray rest with
      | .error e => .error e
      | .ok (xs, r) => .ok (.floatArr xs, r)
    else if typ = ArrayType then
      match decodeGenericArray dec rest with
      | .error e => .error e
      | .ok (vs, r) => .ok (.arr vs, r)
    else .error (.unsupportedType typ (le32 typ))

/-- `decodeObj`, fuel-indexed: each recursive descent into a child node
spends one unit of fuel. -/
def decodeObj : Nat → List Nat → Except DErr (GDValue × List Nat)
  | 0 => fun _ => .error .outOfFuel
  | fuel + 1 => fun s => decodeStep (decodeObj fuel) s

/-! Encoder, from part_000 and types.go. -/

/-- `writePadded`: write the data, then `4 - len % 4` zero bytes when that
is strictly between 0 and 4. -/
def writePadded (data : List Nat) : List Nat :=
  let padding := 4 - data.length % 4
  if 0 < padding ∧ padding < 4 then data ++ List.replicate padding 0 else data

/-- `Integer.MarshalVariant` (types.go): tag word, then the int32 bit
pattern, little-endian. -/
def Integer.MarshalVariant (i : Nat) : List Nat :=
  le32 IntegerType ++ le32 i

/-- `Float.MarshalVariant` (types.go): tag word, then the float32 bit
pattern, little-endian. -/
def Float.MarshalVariant (b : Nat) : List Nat :=
  le32 FloatType ++ le32 b

/-- `Vector3.MarshalVariant` (types.go): tag word, then the three float32
bit patterns X, Y, Z. -/
def Vector3.MarshalVariant (x y z : Nat) : List Nat :=
  le32 Vector3Type ++ le32 x ++ le32 y ++ le32 z

/-- `encodeStr`: string tag, byte-length header (`uint32(len(s))`), then
the padded raw bytes. -/
def encodeStr (s : List Nat) : List Nat :=
  le32 StringType ++ le32 s.length ++ writePadded s

/-- `writeDictHeader`: dictionary tag, then a header word with the shared
bit forced on and the element count in the low 31 bits
(`header |= 0x80000000; header |= 0x7FFFFFFF & elements`). -/
def writeDictHeader (size : Nat) : List Nat :=
  le32 DictionaryType ++ le32 (0x80000000 ||| (0x7FFFFFFF &&& size))

/-- `WriteInt32` applied elementwise, as in the homogeneous-array encoder
loops: each element is one little-endian 32-bit word. -/
def encodeInt32s (xs : List Nat) : List Nat := xs.flatMap le32

/-! `encodeObj` over the dynamic value tree. The reflect-driven classifier
of the source reaches these cases as follows: values whose type implements
`VariantMarshaler` (Integer, Float, Vector3) are emitted verbatim through
`writePadded(MarshalVariant())` before any kind switch; strings go through
`encodeStr`; int32/float32 slices through the homogeneous-array encoders;
other slices through `encodeGenericArray`; structs and maps through
`writeDictHeader` followed by string key + node per entry (struct field
names and map keys both reach `encodeStr`). -/

mutual
def encodeObj : GDValue → List Nat
  | .int n => writePadded (Integer.MarshalVariant n)
  | .float b => writePadded (Float.MarshalVariant b)
  | .str s => encodeStr s
  | .vec3 x y z => writePadded (Vector3.MarshalVariant x y z)
  | .intArr xs => le32 IntegerArrayType ++ le32 xs.length ++ encodeInt32s xs
  | .floatArr xs => le32 FloatArrayType ++ le32 xs.length ++ encodeInt32s xs
  | .arr xs =>
    le32 ArrayType ++ le32 (0x80000000 ||| (xs.length &&& 0x7FFFFFFF)) ++ encodeList xs
  | .dict ps => writeDictHeader ps.length ++ encodePairs ps

def encodeList : List GDValue → List Nat
  | [] => []
  | v :: vs => encodeObj v ++ encodeList vs

def encodePairs : List (List Nat × GDValue) → List Nat
  | [] => []
  | (k, v) :: ps => encodeStr k ++ encodeObj v ++ encodePairs ps
end

/-! Scalar classification of native integers (encodeObj's kind switch):
any integer kind, signed or unsigned and of any width, is converted with
`v.Convert(integerType)`, i.e. reduced to its low 32 bits, and then encoded
through `Integer.MarshalVariant`. `low32` is that Go conversion: the int32
bit pattern of any native integer value. -/

def low32 (n : Int) : Nat := (n % (2 ^ 32 : Int)).toNat

/-- The full scalar path for a native integer of any width/signedness. -/
def encodeIntScalar (n : Int) : List Nat :=
  writePadded (Integer.MarshalVariant (low32 n))

/-- `encodeUIntegerArray`: each unsigned element is written as
`int32(v.Index(i).Uint())`, i.e. its low 32 bits. -/
def encodeUIntegerArray (xs : List Nat) : List Nat :=
  le32 IntegerArrayType ++ le32 xs.length ++ xs.flatMap (fun x => le32 (x % 2 ^ 32))

/-- `encodeIntegerArray`: each signed element is written as
`int32(v.Index(i).Int())`, i.e. its low 32 bits. -/
def encodeIntegerArray (xs : List Int) : List Nat :=
  le32 IntegerArrayType ++ le32 xs.length ++ xs.flatMap (fun x => le32 (low32 x))

/-! A writer that can fail, for the error-path behaviour of `encodeStruct`
and `encodeMap`. `none` is a stream write error; a write succeeds while the
transport budget suffices and fails once it would be exceeded (Go's
`binary.Write`/`Write` returning a non-nil error). Under this budget model
splitting one write into consecutive smaller writes does not change whether
the whole sequence succeeds, so the per-entry loop below may write each
entry's bytes in one step. -/

structure FW where
  budget : Nat
  out : List Nat

def fwWrite (w : FW) (data : List Nat) : Option FW :=
  if data.length ≤ w.budget then some ⟨w.budget - data.length, w.out ++ data⟩ else none

def writeHeaderFW (w : FW) (h : Nat) : Option FW := fwWrite w (le32 h)

/-- `writeDictHeader` on the fallible writer: tag word, then the
shared-bit header word; a failed tag write is propagated. -/
def writeDictHeaderFW (w : FW) (size : Nat) : Option FW :=
  match writeHeaderFW w DictionaryType with
  | none => none
  | some w1 => writeHeaderFW w1 (0x80000000 ||| (0x7FFFFFFF &&& size))

/-- The per-entry loop shared by `encodeStruct` and `encodeMap`: string key
(field name), then the value node; write errors are propagated. -/
def encodeFieldsFW (w : FW) : List (List Nat × GDValue) → Option FW
  | [] => some w
  | (k, v) :: ps =>
    match fwWrite w (encodeStr k) with
    | none => none
    | some w1 =>
      match fwWrite w1 (encodeObj v) with
      | none => none
      | some w2 => encodeFieldsFW w2 ps

/-- `encodeStruct` (part_000 line 374): on a `writeDictHeader` error the
source executes `return nil`, reporting SUCCESS; the `some w` in the first
branch mirrors that returned nil. -/
def encodeStructFW (w : FW) (fields : List (List Nat × GDValue)) : Option FW :=
  match writeDictHeaderFW w fields.length with
  | none => some w
  | some w1 => encodeFieldsFW w1 fields

/-- `encodeMap` (part_000 line 394): same `return nil` on a
`writeDictHeader` error. -/
def encodeMapFW (w : FW) (pairs : List (List Nat × GDValue)) : Option FW :=
  match writeDictHeaderFW w pairs.length with
  | none => some w
  | some w1 => encodeFieldsFW w1 pairs

/-! Well-formedness of a dynamic value: every 32-bit quantity (scalar bit
patterns, byte lengths, element counts) fits its wire word, counts that
share the header word with the shared bit fit in 31 bits, and map keys are
distinct (Go map keys are unique). Every value an actual Go value maps to
satisfies this. `depthB` is the node-nesting depth, used only to supply
decode fuel. -/

def nodupKeys : List (List Nat) → Bool
  | [] => true
  | k :: ks => !(ks.contains k) && nodupKeys ks

mutual
def wfB : GDValue → Bool
  | .int n => decide (n < 2 ^ 32)
  | .float b => decide (b < 2 ^ 32)
  | .str s => decide (s.length < 2 ^ 32)
  | .vec3 x y z => decide (x < 2 ^ 32) && decide (y < 2 ^ 32) && decide (z < 2 ^ 32)
  | .intArr xs => decide (xs.length < 2 ^ 32) && xs.all (fun x => decide (x < 2 ^ 32))
  | .floatArr xs => decide (xs.length < 2 ^ 32) && xs.all (fun x => decide (x < 2 ^ 32))
  | .arr xs => decide (xs.length < 2 ^ 31) && wfL xs
  | .dict ps => decide (ps.length < 2 ^ 31) && nodupKeys (ps.map Prod.fst) && wfP ps

def wfL : List GDValue → Bool
  | [] => true
  | v :: vs => wfB v && wfL vs

def wfP : List (List Nat × GDValue) → Bool
  | [] => true
  | (k, v) :: ps => decide (k.length < 2 ^ 32) && wfB v && wfP ps
end

mutual
def depthB : GDValue → Nat
  | .int _ => 1
  | .float _ => 1
  | .str _ => 1
  | .vec3 _ _ _ => 1
  | .intArr _ => 1
  | .floatArr _ => 1
  | .arr xs => depthL xs + 1
  | .dict ps => depthP ps + 1

def depthL : List GDValue → Nat
  | [] => 0
  | v :: vs => max (depthB v) (depthL vs)

def depthP : List (List Nat × GDValue) → Nat
  | [] => 0
  | (_, v) :: ps => max (depthB v) (depthP ps)
end

/-! Basic facts about the primitives. -/

theorem le32_length (n : Nat) : (le32 n).length = 4 := rfl

theorem readU32_le32 (n : Nat) (rest : List Nat) :
    readU32 (le32 n ++ rest) = some (n % 2 ^ 32, rest) := by
  simp only [le32, readU32, List.cons_append, List.nil_append, Option.some.injEq,
    Prod.mk.injEq]
  exact ⟨by omega, trivial⟩

theorem readU32_le32_lt {n : Nat} (h : n < 2 ^ 32) (rest : List Nat) :
    readU32 (le32 n ++ rest) = some (n, rest) := by
  rw [readU32_le32, Nat.mod_eq_of_lt h]

theorem mask31 (h : Nat) : h &&& 0x7FFFFFFF = h % 2 ^ 31 := by
  have he : (0x7FFFFFFF : Nat) = 2 ^ 31 - 1 := by norm_num
  rw [he, Nat.and_pow_two_sub_one_eq_mod]

theorem mask31comm (h : Nat) : 0x7FFFFFFF &&& h = h % 2 ^ 31 := by
  rw [Nat.and_comm]; exact mask31 h

theorem or_high {m : Nat} (h : m < 2 ^ 31) : (0x80000000 : Nat) ||| m = 2 ^ 31 + m := by
  have h31 : (0x80000000 : Nat) = 2 ^ 31 := by norm_num
  rw [h31]
  have := Nat.mul_add_lt_is_or h 1
  simpa using this.symm

theorem sharedHeader_eq (n : Nat) :
    (0x80000000 : Nat) ||| (0x7FFFFFFF &&& n) = 2 ^ 31 + n % 2 ^ 31 := by
  rw [mask31comm]
  exact or_high (Nat.mod_lt _ (by norm_num))

theorem sharedHeaderR_eq (n : Nat) :
    (0x80000000 : Nat) ||| (n &&& 0x7FFFFFFF) = 2 ^ 31 + n % 2 ^ 31 := by
  rw [mask31]
  exact or_high (Nat.mod_lt _ (by norm_num))

theorem sharedHeader_lt (n : Nat) :
    (0x80000000 : Nat) ||| (0x7FFFFFFF &&& n) < 2 ^ 32 := by
  rw [sharedHeader_eq]
  have : n % 2 ^ 31 < 2 ^ 31 := Nat.mod_lt _ (by norm_num)
  omega

theorem writePadded_aligned {data : List Nat} (h : data.length % 4 = 0) :
    writePadded data = data := by
  simp only [writePadded]
  rw [if_neg]
  omega

theorem writePadded_padding {data : List Nat} (h : data.length % 4 ≠ 0) :
    writePadded data = data ++ List.replicate (4 - data.length % 4) 0 := by
  simp only [writePadded]
  rw [if_pos]
  omega

theorem one_le_depthB (v : GDValue) : 1 ≤ depthB v := by
  cases v <;> simp [depthB]

theorem decodeObj_succ (fuel : Nat) (s : List Nat) :
    decodeObj (fuel + 1) s = decodeStep (decodeObj fuel) s := rfl

theorem take_len_append (l t : List Nat) : (l ++ t).take l.length = l := by
  simp

theorem drop_len_append (l t : List Nat) : (l ++ t).drop l.length = t := by
  simp

/-- Decoding a string payload that the encoder produced: the length header,
the bytes, and the padding the encoder wrote are consumed exactly. -/
theorem decodeStr_encode (s rest : List Nat) (h : s.length < 2 ^ 32) :
    decodeStr (le32 s.length ++ (writePadded s ++ rest)) = .ok (s, rest) := by
  simp only [decodeStr, readU32_le32_lt h]
  by_cases h0 : s.length % 4 = 0
  · rw [writePadded_aligned h0]
    rw [if_neg (by simp only [List.length_append]; omega)]
    rw [take_len_append, drop_len_append]
    simp only [discardPadding]
    rw [if_neg (by omega)]
  · rw [writePadded_padding h0, List.append_assoc]
    rw [if_neg (by simp only [List.length_append]; omega)]
    rw [take_len_append, drop_len_append]
    simp only [discardPadding]
    rw [if_pos (by omega)]
    rw [if_neg (by simp only [List.length_append, List.length_replicate]; omega)]
    have hd := drop_len_append (List.replicate (4 - s.length % 4) 0) rest
    rw [List.length_replicate] at hd
    rw [hd]

/-- Reading back a sequence of 32-bit words the encoder wrote. -/
theorem readN32_encode (xs : List Nat) (rest : List Nat) (h : ∀ x ∈ xs, x < 2 ^ 32) :
    readN32 xs.length (xs.flatMap le32 ++ rest) = .ok (xs, rest) := by
  induction xs with
  | nil => simp [readN32]
  | cons x xs ih =>
    have hx : x < 2 ^ 32 := h x (by simp)
    have ih' := ih (fun y hy => h y (by simp [hy]))
    simp only [List.flatMap_cons, List.length_cons, List.append_assoc, readN32,
      readU32_le32_lt hx, ih']

/-! How `decodeStep` dispatches on each implemented tag, and on an
unimplemented one. -/

theorem decodeStep_str (dec : DecFun) {s : List Nat} (hs : s.length < 2 ^ 32)
    (rest : List Nat) :
    decodeStep dec (le32 StringType ++ (le32 s.length ++ (writePadded s ++ rest)))
      = .ok (.str s, rest) := by
  simp [decodeStep, readU32_le32_lt (show (4 : Nat) < 2 ^ 32 by norm_num),
    decodeStr_encode s rest hs,
    StringType, IntegerType, FloatType, DictionaryType, Vector3Type,
    IntegerArrayType, FloatArrayType, ArrayType]

theorem decodeStep_int (dec : DecFun) {n : Nat} (hn : n < 2 ^ 32) (rest : List Nat) :
    decodeStep dec (le32 IntegerType ++ (le32 n ++ rest)) = .ok (.int n, rest) := by
  simp [decodeStep, readU32_le32_lt (show (2 : Nat) < 2 ^ 32 by norm_num),
    readU32_le32_lt hn,
    StringType, IntegerType, FloatType, DictionaryType, Vector3Type,
    IntegerArrayType, FloatArrayType, ArrayType]

theorem decodeStep_float (dec : DecFun) {b : Nat} (hb : b < 2 ^ 32) (rest : List Nat) :
    decodeStep dec (le32 FloatType ++ (le32 b ++ rest)) = .ok (.float b, rest) := by
  simp [decodeStep, readU32_le32_lt (show (3 : Nat) < 2 ^ 32 by norm_num),
    readU32_le32_lt hb,
    StringType, IntegerType, FloatType, DictionaryType, Vector3Type,
    IntegerArrayType, FloatArrayType, ArrayType]

theorem decodeStep_vec3 (dec : DecFun) {x y z : Nat} (hx : x < 2 ^ 32)
    (hy : y < 2 ^ 32) (hz : z < 2 ^ 32) (rest : List Nat) :
    decodeStep dec (le32 Vector3Type ++ (le32 x ++ (le32 y ++ (le32 z ++ rest))))
      = .ok (.vec3 x y z, rest) := by
  simp [decodeStep, readU32_le32_lt (show (7 : Nat) < 2 ^ 32 by norm_num),
    readU32_le32_lt hx, readU32_le32_lt hy, readU32_le32_lt hz,
    StringType, IntegerType, FloatType, DictionaryType, Vector3Type,
    IntegerArrayType, FloatArrayType, ArrayType]

theorem decodeStep_intArr (dec : DecFun) {xs : List Nat} (hl : xs.length < 2 ^ 32)
    (hx : ∀ x ∈ xs, x < 2 ^ 32) (rest : List Nat) :
    decodeStep dec (le32 IntegerArrayType ++ (le32 xs.length ++ (xs.flatMap le32 ++ rest)))
      = .ok (.intArr xs, rest) := by
  simp [decodeStep, decodeIntegerArray,
    readU32_le32_lt (show (23 : Nat) < 2 ^ 32 by norm_num), readU32_le32_lt hl,
    readN32_encode xs rest hx,
    StringType, IntegerType, FloatType, DictionaryType, Vector3Type,
    IntegerArrayType, FloatArrayType, ArrayType]

theorem decodeStep_floatArr (dec : DecFun) {xs : List Nat} (hl : xs.length < 2 ^ 32)
    (hx : ∀ x ∈ xs, x < 2 ^ 32) (rest : List Nat) :
    decodeStep dec (le32 FloatArrayType ++ (le32 xs.length ++ (xs.flatMap le32 ++ rest)))
      = .ok (.floatArr xs, rest) := by
  simp [decodeStep, decodeFloatArray,
    readU32_le32_lt (show (24 : Nat) < 2 ^ 32 by norm_num), readU32_le32_lt hl,
    readN32_encode xs rest hx,
    StringType, IntegerType, FloatType, DictionaryType, Vector3Type,
    IntegerArrayType, FloatArrayType, ArrayType]

theorem decodeStep_dict (dec : DecFun) {h : Nat} (hh : h < 2 ^ 32) (rest : List Nat) :
    decodeStep dec (le32 DictionaryType ++ (le32 h ++ rest)) =
      match decodePairs dec (h &&& 0x7FFFFFFF) rest with
      | .error e => .error e
      | .ok (ps, r) => .ok (.dict ps, r) := by
  simp [decodeStep, decodeDict,
    readU32_le32_lt (show (20 : Nat) < 2 ^ 32 by norm_num), readU32_le32_lt hh,
    StringType, IntegerType, FloatType, DictionaryType, Vector3Type,
    IntegerArrayType, FloatArrayType, ArrayType]

theorem decodeStep_arr (dec : DecFun) {h : Nat} (hh : h < 2 ^ 32) (rest : List Nat) :
    decodeStep dec (le32 ArrayType ++ (le32 h ++ rest)) =
      match decodeN dec (h &&& 0x7FFFFFFF) rest with
      | .error e => .error e
      | .ok (vs, r) => .ok (.arr vs, r) := by
  simp [decodeStep, decodeGenericArray,
    readU32_le32_lt (show (21 : Nat) < 2 ^ 32 by norm_num), readU32_le32_lt hh,
    StringType, IntegerType, FloatType, DictionaryType, Vector3Type,
    IntegerArrayType, FloatArrayType, ArrayType]

theorem decodeStep_unsupported (dec : DecFun) {t : Nat} (ht : t < 2 ^ 32)
    (h4 : t ≠ StringType) (h2 : t ≠ IntegerType) (h3 : t ≠ FloatType)
    (h20 : t ≠ DictionaryType) (h7 : t ≠ Vector3Type) (h23 : t ≠ IntegerArrayType)
    (h24 : t ≠ FloatArrayType) (h21 : t ≠ ArrayType) (rest : List Nat) :
    decodeStep dec (le32 t ++ rest) = .error (.unsupportedType t (le32 t)) := by
  simp only [decodeStep, readU32_le32_lt ht]
  rw [if_neg h4, if_neg h2, if_neg h3, if_neg h20, if_neg h7, if_neg h23,
    if_neg h24, if_neg h21]

/-! The wire image of each encoded shape, with the (empty) padding of the
4-byte-aligned marshaled payloads resolved away. -/

theorem encodeObj_int (n : Nat) : encodeObj (.int n) = le32 IntegerType ++ le32 n := by
  simp only [encodeObj, Integer.MarshalVariant]
  exact writePadded_aligned (by simp [List.length_append, le32_length])

theorem encodeObj_float (b : Nat) : encodeObj (.float b) = le32 FloatType ++ le32 b := by
  simp only [encodeObj, Float.MarshalVariant]
  exact writePadded_aligned (by simp [List.length_append, le32_length])

theorem encodeObj_vec3 (x y z : Nat) :
    encodeObj (.vec3 x y z) = le32 Vector3Type ++ le32 x ++ le32 y ++ le32 z := by
  simp only [encodeObj, Vector3.MarshalVariant]
  exact writePadded_aligned (by simp [List.length_append, le32_length])

theorem sharedHeaderR_lt (n : Nat) :
    (0x80000000 : Nat) ||| (n &&& 0x7FFFFFFF) < 2 ^ 32 := by
  rw [sharedHeaderR_eq]
  have : n % 2 ^ 31 < 2 ^ 31 := Nat.mod_lt _ (by norm_num)
  omega

/-- The joint round-trip induction: at every fuel level dominating the
value's nesting depth, decoding the encoder's output yields the value back
and consumes exactly its bytes; likewise for the element loop of generic
arrays and the pair loop of dictionaries. -/
theorem decode_encode_aux (fuel : Nat) :
    (∀ v rest, wfB v = true → depthB v ≤ fuel →
      decodeObj fuel (encodeObj v ++ rest) = .ok (v, rest)) ∧
    (∀ vs rest, wfL vs = true → depthL vs ≤ fuel →
      decodeN (decodeObj fuel) vs.length (encodeList vs ++ rest) = .ok (vs, rest)) ∧
    (∀ ps rest, wfP ps = true → depthP ps ≤ fuel →
      decodePairs (decodeObj fuel) ps.length (encodePairs ps ++ rest) = .ok (ps, rest)) := by
  induction fuel with
  | zero =>
    refine ⟨?_, ?_, ?_⟩
    · intro v rest hw hd
      have := one_le_depthB v
      omega
    · intro vs rest hw hd
      cases vs with
      | nil => simp [encodeList, decodeN]
      | cons v vs =>
        have := one_le_depthB v
        simp only [depthL] at hd
        omega
    · intro ps rest hw hd
      cases ps with
      | nil => simp [encodePairs, decodePairs]
      | cons p ps =>
        obtain ⟨k, v⟩ := p
        have := one_le_depthB v
        simp only [depthP] at hd
        omega
  | succ f ih =>
    obtain ⟨ihObj, ihList, ihPairs⟩ := ih
    have hobj : ∀ v rest, wfB v = true → depthB v ≤ f + 1 →
        decodeObj (f + 1) (encodeObj v ++ rest) = .ok (v, rest) := by
      intro v rest hw hd
      rw [decodeObj_succ]
      cases v with
      | int n =>
        have hn : n < 2 ^ 32 := by simpa [wfB] using hw
        rw [encodeObj_int, List.append_assoc]
        exact decodeStep_int _ hn rest
      | float b =>
        have hb : b < 2 ^ 32 := by simpa [wfB] using hw
        rw [encodeObj_float, List.append_assoc]
        exact decodeStep_float _ hb rest
      | str s =>
        have hs : s.length < 2 ^ 32 := by simpa [wfB] using hw
        have he : encodeObj (.str s) ++ rest
            = le32 StringType ++ (le32 s.length ++ (writePadded s ++ rest)) := by
          simp [encodeObj, encodeStr, List.append_assoc]
        rw [he]
        exact decodeStep_str _ hs rest
      | vec3 x y z =>
        have hxyz : (x < 2 ^ 32 ∧ y < 2 ^ 32) ∧ z < 2 ^ 32 := by simpa [wfB] using hw
        have he : encodeObj (.vec3 x y z) ++ rest
            = le32 Vector3Type ++ (le32 x ++ (le32 y ++ (le32 z ++ rest))) := by
          rw [encodeObj_vec3]
          simp [List.append_assoc]
        rw [he]
        exact decodeStep_vec3 _ hxyz.1.1 hxyz.1.2 hxyz.2 rest
      | intArr xs =>
        have hw' : xs.length < 2 ^ 32 ∧ ∀ x ∈ xs, x < 2 ^ 32 := by
          simpa [wfB, List.all_eq_true] using hw
        have he : encodeObj (.intArr xs) ++ rest
            = le32 IntegerArrayType ++ (le32 xs.length ++ (xs.flatMap le32 ++ rest)) := by
          simp [encodeObj, encodeInt32s, List.append_assoc]
        rw [he]
        exact decodeStep_intArr _ hw'.1 hw'.2 rest
      | floatArr xs =>
        have hw' : xs.length < 2 ^ 32 ∧ ∀ x ∈ xs, x < 2 ^ 32 := by
          simpa [wfB, List.all_eq_true] using hw
        have he : encodeObj (.floatArr xs) ++ rest
            = le32 FloatArrayType ++ (le32 xs.length ++ (xs.flatMap le32 ++ rest)) := by
          simp [encodeObj, encodeInt32s, List.append_assoc]
        rw [he]
        exact decodeStep_floatArr _ hw'.1 hw'.2 rest
      | arr xs =>
        have hw' : xs.length < 2 ^ 31 ∧ wfL xs = true := by simpa [wfB] using hw
        have hd' : depthL xs ≤ f := by simp only [depthB] at hd; omega
        have he : encodeObj (.arr xs) ++ rest
            = le32 ArrayType
              ++ (le32 (0x80000000 ||| (xs.length &&& 0x7FFFFFFF)) ++ (encodeList xs ++ rest)) := by
          simp [encodeObj, List.append_assoc]
        rw [he, decodeStep_arr _ (sharedHeaderR_lt xs.length) _]
        have hc : ((0x80000000 : Nat) ||| (xs.length &&& 0x7FFFFFFF)) &&& 0x7FFFFFFF
            = xs.length := by
          rw [sharedHeaderR_eq, mask31]
          omega
        rw [hc, ihList xs rest hw'.2 hd']
      | dict ps =>
        have hw' : (ps.length < 2 ^ 31 ∧ nodupKeys (ps.map Prod.fst) = true) ∧ wfP ps = true := by
          simpa [wfB] using hw
        have hd' : depthP ps ≤ f := by simp only [depthB] at hd; omega
        have he : encodeObj (.dict ps) ++ rest
            = le32 DictionaryType
              ++ (le32 (0x80000000 ||| (0x7FFFFFFF &&& ps.length)) ++ (encodePairs ps ++ rest)) := by
          simp [encodeObj, writeDictHeader, List.append_assoc]
        rw [he, decodeStep_dict _ (sharedHeader_lt ps.length) _]
        have hc : ((0x80000000 : Nat) ||| (0x7FFFFFFF &&& ps.length)) &&& 0x7FFFFFFF
            = ps.length := by
          rw [sharedHeader_eq, mask31]
          have := hw'.1.1
          omega
        rw [hc, ihPairs ps rest hw'.2 hd']
    have hlist : ∀ vs rest, wfL vs = true → depthL vs ≤ f + 1 →
        decodeN (decodeObj (f + 1)) vs.length (encodeList vs ++ rest) = .ok (vs, rest) := by
      intro vs
      induction vs with
      | nil =>
        intro rest hw hd
        simp [encodeList, decodeN]
      | cons v vs ihv =>
        intro rest hw hd
        have hw' : wfB v = true ∧ wfL vs = true := by simpa [wfL] using hw
        have hdv : depthB v ≤ f + 1 := by simp only [depthL] at hd; omega
        have hdvs : depthL vs ≤ f + 1 := by simp only [depthL] at hd; omega
        simp only [encodeList, List.length_cons, List.append_assoc, decodeN,
          hobj v (encodeList vs ++ rest) hw'.1 hdv, ihv rest hw'.2 hdvs]
    have hpairs : ∀ ps rest, wfP ps = true → depthP ps ≤ f + 1 →
        decodePairs (decodeObj (f + 1)) ps.length (encodePairs ps ++ rest) = .ok (ps, rest) := by
      intro ps
      induction ps with
      | nil =>
        intro rest hw hd
        simp [encodePairs, decodePairs]
      | cons p ps ihp =>
        obtain ⟨k, v⟩ := p
        intro rest hw hd
        have hw' : (k.length < 2 ^ 32 ∧ wfB v = true) ∧ wfP ps = true := by
          simpa [wfP] using hw
        have hdv : depthB v ≤ f + 1 := by simp only [depthP] at hd; omega
        have hdps : depthP ps ≤ f + 1 := by simp only [depthP] at hd; omega
        have hkey : decodeObj (f + 1) (encodeStr k ++ (encodeObj v ++ (encodePairs ps ++ rest)))
            = .ok (.str k, encodeObj v ++ (encodePairs ps ++ rest)) := by
          have hke : encodeStr k ++ (encodeObj v ++ (encodePairs ps ++ rest))
              = encodeObj (.str k) ++ (encodeObj v ++ (encodePairs ps ++ rest)) := by
            simp [encodeObj]
          rw [hke]
          exact hobj (.str k) _ (by simpa [wfB] using hw'.1.1)
            (by simp only [depthB]; omega)
        simp only [encodePairs, List.length_cons, List.append_assoc, decodePairs,
          hkey, makeString, hobj v (encodePairs ps ++ rest) hw'.1.2 hdv,
          ihp rest hw'.2 hdps]
    exact ⟨hobj, hlist, hpairs⟩

theorem writePadded_length (data : List Nat) :
    (writePadded data).length
      = data.length + (if data.length % 4 = 0 then 0 else 4 - data.length % 4) := by
  by_cases h0 : data.length % 4 = 0
  · rw [writePadded_aligned h0, if_pos h0]
    omega
  · rw [writePadded_padding h0, if_neg h0, List.length_append, List.length_replicate]

theorem decodeStr_arbitrary_padding (content p rest : List Nat)
    (hL : content.length < 2 ^ 32) (hm : content.length % 4 ≠ 0)
    (hp : p.length = 4 - content.length % 4) :
    decodeStr (le32 content.length ++ (content ++ (p ++ rest))) = .ok (content, rest) := by
  simp only [decodeStr, readU32_le32_lt hL]
  rw [if_neg (by simp only [List.length_append]; omega)]
  rw [take_len_append, drop_len_append]
  simp only [discardPadding]
  rw [if_pos (by omega)]
  rw [if_neg (by simp only [List.length_append]; omega)]
  have hd := drop_len_append p rest
  rw [hp] at hd
  rw [hd]

theorem decodeStep_strBranch (dec : DecFun) (t : List Nat) :
    decodeStep dec (le32 StringType ++ t) =
      match decodeStr t with
      | .error e => .error e
      | .ok (cs, r) => .ok (.str cs, r) := by
  simp [decodeStep, readU32_le32_lt (show (4 : Nat) < 2 ^ 32 by norm_num),
    StringType, IntegerType, FloatType, DictionaryType, Vector3Type,
    IntegerArrayType, FloatArrayType, ArrayType]

/-! The claims. -/

/-- C1: For every supported value shape V (scalar integer or float, text
including the empty string, the fixed 3-component float record, homogeneous
integer or float sequences including empty ones, heterogeneous sequences,
keyed records/mappings, and nested combinations -- i.e. every well-formed
dynamic value), encoding V and then decoding the produced byte stream
yields V back exactly, for any decode fuel dominating V's nesting depth,
with every encoded byte consumed. Mapping the decoded tree onto a
destination of the very same shape is the identity, so the decoded value
equals V. -/
theorem encode_decode_roundtrip (v : GDValue) (fuel : Nat) (rest : List Nat)
    (hw : wfB v = true) (hd : depthB v ≤ fuel) :
    decodeObj fuel (encodeObj v ++ rest) = .ok (v, rest) :=
  (decode_encode_aux fuel).1 v rest hw hd

/-- A concrete nested value touching every supported shape: text (also
empty), int and float scalars, the Vector3 record, homogeneous sequences
(also empty), a heterogeneous sequence, and nested keyed records (also
empty). -/
def vExample : GDValue :=
  .dict [([65], .str [104, 105]),
         ([66], .str []),
         ([67], .int 4294967295),
         ([68], .float 1078530011),
         ([69], .vec3 1109917696 1082969293 1053609165),
         ([70], .intArr [43, 215, 16]),
         ([71], .intArr []),
         ([72], .floatArr [1065353216]),
         ([73], .arr [.int 7, .str [122], .dict [([75], .int 1)]]),
         ([74], .dict [])]

theorem encode_decode_roundtrip_witness :
    wfB vExample = true ∧ depthB vExample ≤ 4 ∧
      decodeObj 4 (encodeObj vExample ++ []) = .ok (vExample, []) :=
  ⟨by decide, by decide, encode_decode_roundtrip vExample 4 [] (by decide) (by decide)⟩

/-- C2 (the code violates this claim): decoding a text payload whose
alignment padding is missing from the stream is supposed to surface the
underlying read error, but `decodeStr` drops the error returned by
`discardPadding` and reports success. On the 9-byte stream
`[4,0,0,0, 1,0,0,0, 97]` (text tag, length 1, one content byte, stream ends
before the 3 padding bytes) `discardPadding` itself fails with the read
error, yet the decode returns the string with no error. -/
theorem decodeStr_swallows_padding_read_error :
    discardPadding [] 1 = .error .eof ∧
    decodeStr (le32 1 ++ [97]) = .ok ([97], []) ∧
    decodeObj 1 [4, 0, 0, 0, 1, 0, 0, 0, 97] = .ok (.str [97], []) :=
  ⟨rfl, rfl, rfl⟩

/-- C3 (the code violates this claim): when writing the dictionary tag or
header word fails with a stream write error, `encodeStruct` and `encodeMap`
execute `return nil`, reporting success instead of the error. With a
writer whose first write fails (budget 0), `writeDictHeader` fails, yet
both encoders return success. -/
theorem encode_swallows_dict_header_write_error :
    writeDictHeaderFW ⟨0, []⟩ 0 = none ∧
    encodeStructFW ⟨0, []⟩ [] = some ⟨0, []⟩ ∧
    encodeMapFW ⟨0, []⟩ [] = some ⟨0, []⟩ :=
  ⟨rfl, rfl, rfl⟩

/-- C4: a value whose type implements the VariantMarshaler hook is encoded
exactly as the padded bytes the hook produces, with no further
classification; in particular the Vector3 record is written as its
dedicated tag 7 followed by the three raw float32 payloads (the padding is
empty since the payload is 4-byte aligned), not as a keyed record (its
leading tag word differs from the dictionary tag word). -/
theorem marshaler_hook_priority (n b x y z : Nat) :
    encodeObj (.int n) = writePadded (Integer.MarshalVariant n) ∧
    encodeObj (.float b) = writePadded (Float.MarshalVariant b) ∧
    encodeObj (.vec3 x y z) = writePadded (Vector3.MarshalVariant x y z) ∧
    encodeObj (.vec3 x y z) = le32 Vector3Type ++ le32 x ++ le32 y ++ le32 z ∧
    (encodeObj (.vec3 x y z)).take 4 = le32 Vector3Type ∧
    le32 Vector3Type ≠ le32 DictionaryType := by
  refine ⟨rfl, rfl, rfl, encodeObj_vec3 x y z, ?_, by decide⟩
  rw [encodeObj_vec3]
  rfl

/-- C5: for every text payload of byte length L, the encoder writes after
the text tag a region of exactly 4 + L + padding bytes (length header, the
raw bytes, zero padding), the padding being `4 - L % 4` when `L % 4` is
nonzero and 0 otherwise, and the region's total length is a multiple of 4
(in particular for every L in 0..8). -/
theorem encodeStr_alignment (s : List Nat) :
    encodeStr s = le32 StringType ++ (le32 s.length ++ writePadded s) ∧
    writePadded s
      = s ++ List.replicate (if s.length % 4 = 0 then 0 else 4 - s.length % 4) 0 ∧
    (le32 s.length ++ writePadded s).length
      = 4 + s.length + (if s.length % 4 = 0 then 0 else 4 - s.length % 4) ∧
    (4 + s.length + (if s.length % 4 = 0 then 0 else 4 - s.length % 4)) % 4 = 0 := by
  refine ⟨rfl, ?_, ?_, ?_⟩
  · by_cases h0 : s.length % 4 = 0
    · rw [if_pos h0, writePadded_aligned h0]
      simp
    · rw [if_neg h0, writePadded_padding h0]
  · rw [List.length_append, le32_length, writePadded_length]
    omega
  · by_cases h0 : s.length % 4 = 0
    · rw [if_pos h0]
      omega
    · rw [if_neg h0]
      omega

/-- C6: decoding a stream whose first 4-byte word is any tag outside the
implemented set {2, 3, 4, 7, 20, 21, 23, 24} fails with the error carrying
that tag value and its raw little-endian bytes; no default value is
returned. -/
theorem decode_rejects_unknown_tag (fuel t : Nat) (rest : List Nat) (ht : t < 2 ^ 32)
    (h2 : t ≠ IntegerType) (h3 : t ≠ FloatType) (h4 : t ≠ StringType)
    (h7 : t ≠ Vector3Type) (h20 : t ≠ DictionaryType) (h21 : t ≠ ArrayType)
    (h23 : t ≠ IntegerArrayType) (h24 : t ≠ FloatArrayType) :
    decodeObj (fuel + 1) (le32 t ++ rest) = .error (.unsupportedType t (le32 t)) := by
  rw [decodeObj_succ]
  exact decodeStep_unsupported _ ht h4 h2 h3 h20 h7 h23 h24 h21 rest

theorem decode_rejects_unknown_tag_witness :
    (0 : Nat) < 2 ^ 32 ∧ (0 : Nat) ≠ IntegerType ∧
      decodeObj 1 (le32 0 ++ []) = .error (.unsupportedType 0 (le32 0)) :=
  ⟨by norm_num, by decide,
    decode_rejects_unknown_tag 0 0 [] (by norm_num) (by decide) (by decide) (by decide)
      (by decide) (by decide) (by decide) (by decide) (by decide)⟩

/-- C7: for every keyed-record or heterogeneous-sequence header word h, the
count used by the decoder is `h &&& 0x7FFFFFFF` (the low 31 bits), and
decoding proceeds identically whether bit 31 of h is set or clear: the
stream with header h decodes exactly like the stream with header
`h % 2^31` (bit 31 cleared), so a header is never rejected for having the
shared bit unset. -/
theorem decode_ignores_shared_bit (fuel h : Nat) (rest : List Nat) (hh : h < 2 ^ 32) :
    (h &&& 0x7FFFFFFF = h % 2 ^ 31) ∧
    (decodeObj (fuel + 1) (le32 DictionaryType ++ (le32 h ++ rest)) =
      match decodePairs (decodeObj fuel) (h &&& 0x7FFFFFFF) rest with
      | .error e => .error e
      | .ok (ps, r) => .ok (.dict ps, r)) ∧
    (decodeObj (fuel + 1) (le32 ArrayType ++ (le32 h ++ rest)) =
      match decodeN (decodeObj fuel) (h &&& 0x7FFFFFFF) rest with
      | .error e => .error e
      | .ok (vs, r) => .ok (.arr vs, r)) ∧
    (decodeObj (fuel + 1) (le32 DictionaryType ++ (le32 h ++ rest)) =
      decodeObj (fuel + 1) (le32 DictionaryType ++ (le32 (h % 2 ^ 31) ++ rest))) ∧
    (decodeObj (fuel + 1) (le32 ArrayType ++ (le32 h ++ rest)) =
      decodeObj (fuel + 1) (le32 ArrayType ++ (le32 (h % 2 ^ 31) ++ rest))) := by
  have hm : h % 2 ^ 31 < 2 ^ 32 := by
    have := Nat.mod_lt h (show 0 < 2 ^ 31 by norm_num)
    omega
  have hmm : h % 2 ^ 31 &&& 0x7FFFFFFF = h &&& 0x7FFFFFFF := by
    rw [mask31, mask31]
    omega
  refine ⟨mask31 h, ?_, ?_, ?_, ?_⟩
  · rw [decodeObj_succ, decodeStep_dict _ hh]
  · rw [decodeObj_succ, decodeStep_arr _ hh]
  · rw [decodeObj_succ, decodeObj_succ, decodeStep_dict _ hh, decodeStep_dict _ hm, hmm]
  · rw [decodeObj_succ, decodeObj_succ, decodeStep_arr _ hh, decodeStep_arr _ hm, hmm]

theorem decode_ignores_shared_bit_witness :
    (0x80000000 : Nat) < 2 ^ 32 ∧
      decodeObj 1 (le32 DictionaryType ++ (le32 0x80000000 ++ [])) =
        decodeObj 1 (le32 DictionaryType ++ (le32 (0x80000000 % 2 ^ 31) ++ [])) :=
  ⟨by norm_num, (decode_ignores_shared_bit 0 0x80000000 [] (by norm_num)).2.2.2.1⟩

/-- C8: any native integer, of any bit width and signedness, is encoded --
as a scalar and as a homogeneous-sequence element -- by writing exactly its
low 32 bits as a little-endian int32; the truncation always succeeds (the
encoders are total functions) and wide values encode identically to their
low-32-bit truncations. -/
theorem integer_encode_truncates_to_low32 (n : Int) (m : Nat) (xs : List Nat)
    (ys : List Int) :
    encodeIntScalar n = le32 IntegerType ++ le32 ((n % 2 ^ 32).toNat) ∧
    encodeIntScalar n = encodeIntScalar (n % 2 ^ 32) ∧
    low32 (Int.ofNat m) = m % 2 ^ 32 ∧
    encodeIntScalar n = encodeObj (.int (low32 n)) ∧
    encodeUIntegerArray xs = encodeObj (.intArr (xs.map (fun x => x % 2 ^ 32))) ∧
    encodeIntegerArray ys = encodeObj (.intArr (ys.map low32)) := by
  have h4 : encodeIntScalar n = encodeObj (.int (low32 n)) := rfl
  refine ⟨?_, ?_, ?_, h4, ?_, ?_⟩
  · rw [h4, encodeObj_int]
    rfl
  · unfold encodeIntScalar low32
    rw [Int.emod_emod_of_dvd n (dvd_refl _)]
  · unfold low32
    norm_cast
  · simp [encodeUIntegerArray, encodeObj, encodeInt32s, List.flatMap_map,
      List.length_map]
  · simp [encodeIntegerArray, encodeObj, encodeInt32s, List.flatMap_map,
      List.length_map]

/-- C9: when decoding a keyed record, each key node must coerce to text:
only a text node yields a string (no node kind the decoder can produce
exposes a to-text operation), and any other node kind -- for example a
decoded integer scalar -- makes the whole decode fail with the
key-coercion error. -/
theorem dict_key_requires_text (o : GDValue) (ho : ∀ s, o ≠ .str s) :
    (∀ s, makeString (.str s) = .ok s) ∧
    makeString o = .error (.notString o) ∧
    decodeObj 2 (le32 DictionaryType ++ (le32 1 ++ (le32 IntegerType ++ le32 7)))
      = .error (.notString (.int 7)) := by
  refine ⟨fun _ => rfl, ?_, by rfl⟩
  cases o with
  | str s => exact absurd rfl (ho s)
  | int n => rfl
  | float b => rfl
  | vec3 x y z => rfl
  | intArr xs => rfl
  | floatArr xs => rfl
  | arr xs => rfl
  | dict ps => rfl

theorem dict_key_requires_text_witness :
    makeString (.int 5) = .error (.notString (.int 5)) :=
  (dict_key_requires_text (.int 5) (fun _ h => nomatch h)).2.1

/-- C10: the decoder consumes the alignment padding after a text payload
without inspecting it: for any content of length L with L % 4 nonzero and
any `4 - L % 4` padding bytes of arbitrary values (zero or not), decoding
succeeds and returns the content, independent of the padding bytes. -/
theorem decode_padding_bytes_uninspected (fuel : Nat) (content p rest : List Nat)
    (hL : content.length < 2 ^ 32) (hm : content.length % 4 ≠ 0)
    (hp : p.length = 4 - content.length % 4) :
    decodeObj (fuel + 1)
        (le32 StringType ++ (le32 content.length ++ (content ++ (p ++ rest))))
      = .ok (.str content, rest) := by
  rw [decodeObj_succ, decodeStep_strBranch,
    decodeStr_arbitrary_padding content p rest hL hm hp]

theorem decode_padding_bytes_uninspected_witness :
    ([97] : List Nat).length < 2 ^ 32 ∧ ([97] : List Nat).length % 4 ≠ 0 ∧
      ([255, 254, 253] : List Nat).length = 4 - ([97] : List Nat).length % 4 ∧
      decodeObj 1
          (le32 StringType ++ (le32 ([97] : List Nat).length ++ ([97] ++ ([255, 254, 253] ++ []))))
        = .ok (.str [97], []) :=
  ⟨by decide, by decide, by decide,
    decode_padding_bytes_uninspected 0 [97] [255, 254, 253] [] (by decide) (by decide)
      (by decide)⟩

end GDVariant
